import Mathlib

/-!
Verification development for the need-cash ledger core
(`src/flow.py`, `src/ledger.py`, `src/utils/balance.py`, `src/utils/save.py`).

The Python code is shallowly embedded:
* Python `datetime.datetime` values are records of calendar fields; ordering,
  `.date()` comparison and `timedelta.days` are modelled through the proleptic
  Gregorian ordinal (`datetime.toordinal`) and total microsecond counts,
  exactly as CPython computes them for (valid) naive datetimes.
* Python `float` amounts are modelled as rationals.
* The process-wide `Flow._id_counter` is threaded explicitly through the
  operations that construct flows.
* `while` loops over calendar months are written with an explicit fuel
  argument; each iteration is a faithful transcription of the loop body.
-/

namespace NeedCash

/-- Model of a naive Python `datetime.datetime` (year, month, day, hour,
minute, second, microsecond). -/
structure DateTime where
  year : Nat
  month : Nat
  day : Nat
  hour : Nat
  minute : Nat
  second : Nat
  usec : Nat
deriving DecidableEq, Repr

/-- Gregorian leap-year test, as in Python `calendar.isleap`. -/
def isLeap (y : Nat) : Bool :=
  (y % 4 == 0 && y % 100 != 0) || y % 400 == 0

/-- Number of days in a month, as returned in the second component of
Python `calendar.monthrange(y, m)`. -/
def daysInMonth (y m : Nat) : Nat :=
  if m = 2 then (if isLeap y then 29 else 28)
  else if m = 4 ∨ m = 6 ∨ m = 9 ∨ m = 11 then 30
  else 31

/-- Days in year `y` strictly before month `m`. -/
def daysBeforeMonth (y m : Nat) : Nat :=
  ((List.range (m - 1)).map (fun i => daysInMonth y (i + 1))).sum

/-- Proleptic Gregorian ordinal of a calendar date, with day 1 being
0001-01-01 — the value of Python `datetime.date(y, m, d).toordinal()`. -/
def toOrdinal (y m d : Nat) : Nat :=
  365 * (y - 1) + (y - 1) / 4 - (y - 1) / 100 + (y - 1) / 400 + daysBeforeMonth y m + d

/-- Ordinal of the calendar date of a datetime: Python `dt.date().toordinal()`.
Python compares `date` objects lexicographically on (y, m, d), which for
valid dates coincides with comparing ordinals. -/
def DateTime.dateOrd (dt : DateTime) : Nat :=
  toOrdinal dt.year dt.month dt.day

/-- Total microseconds of a datetime counted from the epoch 0001-01-01
00:00:00. CPython compares naive datetimes (and forms `timedelta`
differences) exactly by this quantity. -/
def DateTime.micros (dt : DateTime) : Nat :=
  ((dt.dateOrd * 86400 + dt.hour * 3600 + dt.minute * 60 + dt.second) * 1000000) + dt.usec

/-- Microseconds in one day. -/
def microsPerDay : Int := 86400000000

/-- Signed difference `a - b` in microseconds: the Python `timedelta` a - b. -/
def deltaMicros (a b : DateTime) : Int :=
  (a.micros : Int) - (b.micros : Int)

/-- Python `(a - b).days`: the `timedelta` day component, which is the floor
of the signed duration in days. -/
def timedeltaDays (a b : DateTime) : Int :=
  Int.fdiv (deltaMicros a b) microsPerDay

/-- Inverse of `toOrdinal`: the (year, month, day) of a positive Gregorian
ordinal (Python `datetime.date.fromordinal`), via the standard
civil-from-days computation shifted to the era origin 0000-03-01. -/
def fromOrdinal (o : Nat) : Nat × Nat × Nat :=
  let z := o + 305
  let era := z / 146097
  let doe := z % 146097
  let yoe := (doe - doe / 1460 + doe / 36524 - doe / 146096) / 365
  let y := yoe + era * 400
  let doy := doe - (365 * yoe + yoe / 4 - yoe / 100)
  let mp := (5 * doy + 2) / 153
  let d := doy - (153 * mp + 2) / 5 + 1
  let m := if mp < 10 then mp + 3 else mp - 9
  (if m ≤ 2 then y + 1 else y, m, d)

/-- Python `dt + timedelta(days := n)` for a non-negative shift: the time of
day is unchanged and the calendar date advances by `n` days. -/
def DateTime.addDays (dt : DateTime) (n : Nat) : DateTime :=
  let ymd := fromOrdinal (dt.dateOrd + n)
  { dt with year := ymd.1, month := ymd.2.1, day := ymd.2.2 }

/-- Python `dt - timedelta(days := 1)` (used by the backward month walk on a
first-of-month date): time of day unchanged, date moved back one day. -/
def DateTime.subOneDay (dt : DateTime) : DateTime :=
  let ymd := fromOrdinal (dt.dateOrd - 1)
  { dt with year := ymd.1, month := ymd.2.1, day := ymd.2.2 }

/-- Model of `src/flow.py` `Flow`: one cash movement. The `flow_id` is
assigned from the process-wide counter by `__post_init__`; `mkFlow` below
models construction. -/
structure Flow where
  flow_id : Int
  size : ℚ
  category : String
  time_executed : DateTime
  recurrent : Int
  comments : String
deriving DecidableEq, Repr

/-- Model of `Flow(...)` construction: `__post_init__` increments the class
counter `Flow._id_counter` and assigns it as the id of the new flow. Returns the
flow together with the updated counter. -/
def mkFlow (counter : Int) (size : ℚ) (category : String) (time_executed : DateTime)
    (recurrent : Int) (comments : String) : Flow × Int :=
  (⟨counter + 1, size, category, time_executed, recurrent, comments⟩, counter + 1)

/-- Model of `src/ledger.py` `Ledger`: the executed tuple and projected list
partitions of `_flows`, plus `account_name` and `last_id`. -/
structure Ledger where
  account_name : String
  executed : List Flow
  projected : List Flow
  last_id : Int
deriving DecidableEq, Repr

/-- Model of `Ledger(account_name)` followed by `__post_init__`: both
partitions empty, `last_id` at its default 0. -/
def Ledger.init (name : String) : Ledger :=
  ⟨name, [], [], 0⟩

/-- Model of `Ledger.add_flow`: scans the projected list and then the
executed tuple for a flow with the same id; on a hit the call is a pure
no-op, otherwise the flow is appended to the partition selected by
`is_proj` and `last_id` is updated. -/
def Ledger.add_flow (l : Ledger) (flow : Flow) (is_proj : Bool) : Ledger :=
  if l.projected.any (fun g => decide (g.flow_id = flow.flow_id)) then l
  else if l.executed.any (fun g => decide (g.flow_id = flow.flow_id)) then l
  else if is_proj then
    { l with projected := l.projected ++ [flow], last_id := flow.flow_id }
  else
    { l with executed := l.executed ++ [flow], last_id := flow.flow_id }

/-- Loop body of `Ledger.execute_flow`: walk the projected list for the
first flow whose id matches. On a match, a brand-new `Flow` is constructed
(consuming one counter value) with the realized size and timestamp and the
category, recurrence and comments of the matched flow; the projected list either
drops the matched flow (`recurrent == 0`) or keeps it with `time_executed`
overwritten. Returns the synthesized flow and updated projected list, or
`none` when no id matches. -/
def execGo (counter fid : Int) (real_size : ℚ) (t : DateTime) :
    List Flow → Option (Flow × List Flow)
  | [] => none
  | f :: rest =>
    if f.flow_id = fid then
      some (⟨counter + 1, real_size, f.category, t, f.recurrent, f.comments⟩,
        if f.recurrent = 0 then rest else { f with time_executed := t } :: rest)
    else
      (execGo counter fid real_size t rest).map (fun p => (p.1, f :: p.2))

/-- Model of `Ledger.execute_flow`: returns the boolean result together with
the updated ledger and `Flow._id_counter`. -/
def Ledger.execute_flow (l : Ledger) (fid : Int) (real_size : ℚ) (t : DateTime)
    (counter : Int) : Bool × Ledger × Int :=
  match execGo counter fid real_size t l.projected with
  | none => (false, l, counter)
  | some p =>
    (true, { l with executed := l.executed ++ [p.1], projected := p.2 }, counter + 1)

/-- Model of `Ledger.remove_projected_flow`: filters the id out of the
projected list and reports whether the length shrank. -/
def Ledger.remove_projected_flow (l : Ledger) (fid : Int) : Bool × Ledger :=
  let kept := l.projected.filter (fun f => decide (f.flow_id ≠ fid))
  (decide (kept.length < l.projected.length), { l with projected := kept })

/-- Model of `get_balance` (src/utils/balance.py): sum of `size` over the
executed flows whose `time_executed.date()` is at most `_timestamp.date()`
(date-only comparison). -/
def get_balance (l : Ledger) (timestamp : DateTime) : ℚ :=
  ((l.executed.filter (fun f => decide (f.time_executed.dateOrd ≤ timestamp.dateOrd))).map
    Flow.size).sum

/-- Model of the defaulted call `get_balance(ledger)`. Python evaluates the
default expression `_timestamp = datetime.now()` exactly once, when the
`balance` module is imported, so every defaulted call uses that one captured
datetime; `import_time` is that captured value. -/
def get_balance_defaulted (import_time : DateTime) (l : Ledger) : ℚ :=
  get_balance l import_time

/-- Model of `get_future_balance`: starts from the defaulted
`get_balance(ledger)` (see `get_balance_defaulted`) and folds over the
projected flows; a flow with `time_executed <= timestamp` (full datetime
comparison) contributes its size once if non-recurrent, and otherwise its
size times `(timestamp - time_executed).days // recurrent` (Python floor
division). The source only reads the ledger, so the model is a pure
function of it. -/
def get_future_balance (import_time : DateTime) (l : Ledger) (timestamp : DateTime) : ℚ :=
  l.projected.foldl (fun balance f =>
    if f.time_executed.micros ≤ timestamp.micros then
      if f.recurrent = 0 then balance + f.size
      else balance + f.size * ((Int.fdiv (timedeltaDays timestamp f.time_executed) f.recurrent : Int) : ℚ)
    else balance)
    (get_balance_defaulted import_time l)

/-- Python `f"{x:.2f}"` followed by `float(...)`: rounding to two decimal
places with round-half-to-even tie breaking, as `format` applies to floats
(here modelled on the rational amounts). -/
def round2 (q : ℚ) : ℚ :=
  let s : ℚ := q * 100
  let fl : Int := Int.fdiv s.num (s.den : Int)
  let r : ℚ := s - (fl : ℚ)
  let n : Int :=
    if r < 1 / 2 then fl
    else if 1 / 2 < r then fl + 1
    else if fl % 2 = 0 then fl else fl + 1
  (n : ℚ) / 100

/-- One `end_of_month` value of the forward walk: `current_date.replace(day
:= last_day, hour := 23, minute := 59, second := 59)` (microsecond kept, as
Python `replace` keeps unspecified fields). -/
def endOfMonth (cur : DateTime) : DateTime :=
  { cur with day := daysInMonth cur.year cur.month, hour := 23, minute := 59, second := 59 }

/-- The month-advance step common to the forward walk:
`current_date.replace(day := 28) + timedelta(days := 4)` then
`.replace(day := 1)` — the first day of the next month, time of day kept. -/
def nextMonthFirst (cur : DateTime) : DateTime :=
  { ({ cur with day := 28 }.addDays 4) with day := 1 }

/-- Model of `get_future_monthly_balances`: walks month by month from `cur`
(the `datetime.now()` read at call entry) while `current_date <=
end_timestamp`, recording for each month the two-decimal-rounded
`get_future_balance` at the month end (clipped to `end_timestamp`). Keys
are modelled as (year, month) pairs in insertion order; `fuel` bounds the
number of loop iterations. -/
def get_future_monthly_balances (fuel : Nat) (import_time : DateTime) (l : Ledger)
    (cur end_timestamp : DateTime) : List ((Nat × Nat) × ℚ) :=
  match fuel with
  | 0 => []
  | fuel + 1 =>
    if cur.micros ≤ end_timestamp.micros then
      let eom := endOfMonth cur
      let eom := if end_timestamp.micros < eom.micros then end_timestamp else eom
      let balance := round2 (get_future_balance import_time l eom)
      ((cur.year, cur.month), balance) ::
        get_future_monthly_balances fuel import_time l (nextMonthFirst cur) end_timestamp
    else []

/-- Model of `get_past_monthly_balances`: walks backward month by month from
`cur` (the `datetime.now()` read at call entry) while `current_date >=
end_timestamp`, recording for each month `get_balance` at that month end
(no rounding). The source also computes a clipped `start_of_month`, which
is dead code (its uses are commented out) and does not affect the result.
Keys are (year, month) pairs in insertion order; `fuel` bounds the loop. -/
def get_past_monthly_balances (fuel : Nat) (l : Ledger)
    (cur end_timestamp : DateTime) : List ((Nat × Nat) × ℚ) :=
  match fuel with
  | 0 => []
  | fuel + 1 =>
    if end_timestamp.micros ≤ cur.micros then
      let balance := get_balance l (endOfMonth cur)
      ((cur.year, cur.month), balance) ::
        get_past_monthly_balances fuel l { cur with day := 1 }.subOneDay end_timestamp
    else []

/-- Model of the Python call `Ledger()` appearing in the `except`
branch of `load_ledger` (src/utils/save.py line 56). The dataclass field
`account_name : str` of `Ledger` has no default value, so `Ledger()` does
not produce a ledger: CPython raises `TypeError: __init__() missing 1
required positional argument account_name`. Modelled as the raised
exception. -/
def ledgerNoArgCtor : Except String Ledger :=
  Except.error "TypeError: __init__() missing 1 required positional argument: account_name"

/-- Model of `load_ledger`: file reading plus unpickling is abstracted as
`readResult` (`Except.ok` a ledger, or `Except.error` with the exception
message). The try branch returns the unpickled ledger; the except branch
executes `return Ledger()`, i.e. `ledgerNoArgCtor`. -/
def load_ledger (readResult : Except String Ledger) : Except String Ledger :=
  match readResult with
  | Except.ok l => Except.ok l
  | Except.error _ => ledgerNoArgCtor

/-- One application-level call against the ledger: adding a
constructor-fresh flow, executing a projected flow, or removing one. -/
inductive Op where
  | add (size : ℚ) (category : String) (t : DateTime) (recurrent : Int)
      (comments : String) (is_proj : Bool)
  | exec (fid : Int) (real_size : ℚ) (t : DateTime)
  | remove (fid : Int)

/-- Effect of one `Op` on the ledger together with the process-wide
`Flow._id_counter`. An `add` constructs its flow with `mkFlow` (as every
flow handed to `add_flow` is built by the `Flow` constructor) and then
calls `add_flow`. -/
def stepOp (s : Ledger × Int) (op : Op) : Ledger × Int :=
  match op with
  | Op.add size category t recurrent comments is_proj =>
    let fc := mkFlow s.2 size category t recurrent comments
    (s.1.add_flow fc.1 is_proj, fc.2)
  | Op.exec fid real_size t =>
    let r := s.1.execute_flow fid real_size t s.2
    r.2
  | Op.remove fid => ((s.1.remove_projected_flow fid).2, s.2)

/-- Run a call sequence from a freshly initialised ledger and the initial
`Flow._id_counter` value `-1` (src/flow.py line 37). -/
def runOps (name : String) (ops : List Op) : Ledger × Int :=
  ops.foldl stepOp (Ledger.init name, -1)

/-- The flow ids of a partition, in order. -/
def idsOf (fs : List Flow) : List Int :=
  fs.map Flow.flow_id

/-!  Definitions transcribed from the words of the specification, for the
refinement-style claims (they are compared with the source-derived
definitions above). -/

/-- Spec wording for `realizedBalance`: the sum of `amount` over every
executed flow whose `executionTime` date is at most the `asOf` date. -/
def specRealizedBalance (l : Ledger) (asOf : DateTime) : ℚ :=
  (l.executed.map (fun f =>
    if f.time_executed.dateOrd ≤ asOf.dateOrd then f.size else 0)).sum

/-- Spec wording for the contribution of one projected flow to
`projectedBalance(_, asOf)`: nothing when `executionTime > asOf`; otherwise
the amount once if non-recurring, else the amount times
`floor(elapsedDays / recurrencePeriodDays)` where `elapsedDays` is the
whole-day part of `asOf - executionTime`. -/
def specFlowContribution (asOf : DateTime) (f : Flow) : ℚ :=
  if f.time_executed.micros ≤ asOf.micros then
    if f.recurrent = 0 then f.size
    else f.size * ((Int.fdiv (timedeltaDays asOf f.time_executed) f.recurrent : Int) : ℚ)
  else 0

/-! Concrete values used by witnesses and counterexamples. -/

/-- Datetime 2024-01-01 00:00:00. -/
def dt20240101 : DateTime := ⟨2024, 1, 1, 0, 0, 0, 0⟩

/-- Datetime 2024-01-31 00:00:00. -/
def dt20240131 : DateTime := ⟨2024, 1, 31, 0, 0, 0, 0⟩

/-- A recurring projected flow: 100 every 30 days from 2024-01-01. -/
def flowRec : Flow := ⟨1, 100, "salary", dt20240101, 30, ""⟩

/-- A ledger holding only `flowRec` in its projected list. -/
def ledgerRec : Ledger := ⟨"acct", [], [flowRec], 1⟩

/-- A non-recurring flow dated 2024-01-31. -/
def flowLate : Flow := ⟨2, 50, "rent", dt20240131, 0, ""⟩

/-! Shared helper lemmas. -/

/-- Summing the sizes of a filtered list equals summing a guarded size over
the whole list. -/
theorem filter_map_sum (p : Flow → Prop) [DecidablePred p] (xs : List Flow) :
    ((xs.filter (fun f => decide (p f))).map Flow.size).sum
      = (xs.map (fun f => if p f then f.size else 0)).sum := by
  induction xs with
  | nil => rfl
  | cons f rest ih =>
    by_cases h : p f <;> simp [List.filter_cons, h, ih]

/-- The projected-flow fold of `get_future_balance` decomposes as the start
balance plus the sum of the per-flow contributions. -/
theorem foldl_contrib_eq (ts : DateTime) (xs : List Flow) (init : ℚ) :
    xs.foldl (fun balance f =>
      if f.time_executed.micros ≤ ts.micros then
        if f.recurrent = 0 then balance + f.size
        else balance + f.size * ((Int.fdiv (timedeltaDays ts f.time_executed) f.recurrent : Int) : ℚ)
      else balance) init
      = init + (xs.map (specFlowContribution ts)).sum := by
  induction xs generalizing init with
  | nil => simp
  | cons f rest ih =>
    simp only [List.foldl_cons, List.map_cons, List.sum_cons, ih]
    unfold specFlowContribution
    by_cases h1 : f.time_executed.micros ≤ ts.micros
    · by_cases h2 : f.recurrent = 0 <;> simp [h1, h2] <;> ring
    · simp [h1]

/-- Decomposition of `get_future_balance` (not tied to any single claim). -/
theorem get_future_balance_eq_sum (it : DateTime) (l : Ledger) (ts : DateTime) :
    get_future_balance it l ts
      = get_balance l it + (l.projected.map (specFlowContribution ts)).sum := by
  unfold get_future_balance get_balance_defaulted
  exact foldl_contrib_eq ts l.projected _

/-! Claim theorems. -/

/-- C1: `get_balance` returns exactly the sum of `size` over the executed
flows whose `time_executed.date()` is at most `T.date()` (date-only
comparison), and adding an executed flow dated strictly after the date of `T` leaves the balance at `T` unchanged. -/
theorem c1_realized_balance (l : Ledger) (T : DateTime) (f : Flow) :
    get_balance l T = specRealizedBalance l T ∧
      (T.dateOrd < f.time_executed.dateOrd →
        get_balance (l.add_flow f false) T = get_balance l T) := by
  constructor
  · exact filter_map_sum (fun g => g.time_executed.dateOrd ≤ T.dateOrd) l.executed
  · intro h
    unfold Ledger.add_flow
    split_ifs with h1 h2 h3
    · rfl
    · rfl
    · simp [get_balance]
    · have hf : (decide (f.time_executed.dateOrd ≤ T.dateOrd)) = false := by
        simpa using Nat.not_le.mpr h
      simp [get_balance, List.filter_append, List.filter_cons, hf]

/-- Witness for C1 at a concrete ledger, timestamp and future-dated flow. -/
theorem c1_realized_balance_witness :
    dt20240101.dateOrd < flowLate.time_executed.dateOrd ∧
      get_balance ((Ledger.init "acct").add_flow flowLate false) dt20240101
        = get_balance (Ledger.init "acct") dt20240101 :=
  ⟨by decide, (c1_realized_balance (Ledger.init "acct") dt20240101 flowLate).2 (by decide)⟩

/-- C2: `get_future_balance` equals the realized balance taken with the
captured module default timestamp plus, for every projected flow, its
contribution: its amount once if non-recurring (when due by `asOf`), its
recurrence-expanded contribution if recurring, and nothing when
`time_executed > asOf`. The embedding is a pure function of the ledger: the
source never mutates it. -/
theorem c2_projected_balance (it : DateTime) (l : Ledger) (asOf : DateTime) :
    get_future_balance it l asOf
      = get_balance l it + (l.projected.map (specFlowContribution asOf)).sum :=
  get_future_balance_eq_sum it l asOf

/-- C3: a projected recurring flow with period `P > 0`, amount `A` and
template time `t0 ≤ asOf` contributes exactly
`A * ((asOf - t0).days // P)` (floor); at `asOf` exactly `k` whole periods
after `t0` the contribution is `A * k`, and with zero elapsed whole days it
is `0`. -/
theorem c3_recurring_contribution (it : DateTime) (l : Ledger) (f : Flow)
    (asOf : DateTime) (k : Nat) (hp : l.projected = [f]) (hr : 0 < f.recurrent)
    (ht : f.time_executed.micros ≤ asOf.micros) :
    (get_future_balance it l asOf
        = get_balance l it
          + f.size * ((Int.fdiv (timedeltaDays asOf f.time_executed) f.recurrent : Int) : ℚ))
      ∧ (deltaMicros asOf f.time_executed = (k : Int) * f.recurrent * microsPerDay →
          get_future_balance it l asOf = get_balance l it + f.size * (k : ℚ))
      ∧ (timedeltaDays asOf f.time_executed = 0 →
          get_future_balance it l asOf = get_balance l it) := by
  have hmain : get_future_balance it l asOf
      = get_balance l it + specFlowContribution asOf f := by
    rw [get_future_balance_eq_sum, hp]
    simp
  have hne : f.recurrent ≠ 0 := ne_of_gt hr
  have hcontrib : specFlowContribution asOf f
      = f.size * ((Int.fdiv (timedeltaDays asOf f.time_executed) f.recurrent : Int) : ℚ) := by
    unfold specFlowContribution
    simp [ht, hne]
  refine ⟨by rw [hmain, hcontrib], ?_, ?_⟩
  · intro hk
    have hμ : microsPerDay ≠ 0 := by decide
    have hdays : timedeltaDays asOf f.time_executed = (k : Int) * f.recurrent := by
      unfold timedeltaDays
      rw [hk, Int.mul_fdiv_cancel _ hμ]
    rw [hmain, hcontrib, hdays, Int.mul_fdiv_cancel _ hne]
    norm_num
  · intro h0
    rw [hmain, hcontrib, h0]
    simp

/-- Witness for C3: 100 every 30 days from 2024-01-01, queried at
2024-01-31 (exactly one elapsed period). -/
theorem c3_recurring_contribution_witness :
    ledgerRec.projected = [flowRec] ∧ 0 < flowRec.recurrent
      ∧ flowRec.time_executed.micros ≤ dt20240131.micros
      ∧ deltaMicros dt20240131 flowRec.time_executed
          = ((1 : Nat) : Int) * flowRec.recurrent * microsPerDay
      ∧ get_future_balance dt20240101 ledgerRec dt20240131
          = get_balance ledgerRec dt20240101 + flowRec.size * ((1 : Nat) : ℚ) :=
  ⟨rfl, by decide, by decide, by decide,
    (c3_recurring_contribution dt20240101 ledgerRec flowRec dt20240131 1 rfl
      (by decide) (by decide)).2.1 (by decide)⟩

/-- Whether some flow in either partition carries the id (the condition of
the duplicate scan of `add_flow`). -/
def hasId (l : Ledger) (i : Int) : Bool :=
  l.projected.any (fun g => decide (g.flow_id = i))
    || l.executed.any (fun g => decide (g.flow_id = i))

/-- How many flows across both partitions carry the id. -/
def countId (l : Ledger) (i : Int) : Nat :=
  l.projected.countP (fun g => decide (g.flow_id = i))
    + l.executed.countP (fun g => decide (g.flow_id = i))

/-- A duplicate-id `add_flow` call is a pure no-op. -/
theorem add_flow_of_hasId (l : Ledger) (f : Flow) (b : Bool)
    (h : hasId l f.flow_id = true) : l.add_flow f b = l := by
  unfold Ledger.add_flow
  split_ifs with h1 h2
  · rfl
  · rfl
  all_goals
    exfalso
    unfold hasId at h
    rw [Bool.or_eq_true] at h
    tauto

/-- After any `add_flow` call, the id of the flow occurs in the ledger. -/
theorem hasId_after_add (l : Ledger) (f : Flow) (b : Bool) :
    hasId (l.add_flow f b) f.flow_id = true := by
  unfold Ledger.add_flow
  split_ifs with h1 h2 h3 <;> unfold hasId <;> simp_all

/-- If no flow in the list has the id, the `execute_flow` scan misses. -/
theorem execGo_of_not_mem (c fid : Int) (rs : ℚ) (t : DateTime) (ps : List Flow)
    (h : ∀ f ∈ ps, f.flow_id ≠ fid) : execGo c fid rs t ps = none := by
  induction ps with
  | nil => rfl
  | cons f rest ih =>
    have hf : f.flow_id ≠ fid := h f (by simp)
    simp [execGo, hf, ih (fun x hx => h x (by simp [hx]))]

/-- The `execute_flow` scan on a list whose first id-match is `m`. -/
theorem execGo_append (c fid : Int) (rs : ℚ) (t : DateTime)
    (pre : List Flow) (m : Flow) (post : List Flow)
    (hpre : ∀ g ∈ pre, g.flow_id ≠ fid) (hm : m.flow_id = fid) :
    execGo c fid rs t (pre ++ m :: post)
      = some (⟨c + 1, rs, m.category, t, m.recurrent, m.comments⟩,
          pre ++ (if m.recurrent = 0 then post
            else { m with time_executed := t } :: post)) := by
  induction pre with
  | nil => by_cases h0 : m.recurrent = 0 <;> simp [execGo, hm, h0]
  | cons g rest ih =>
    have hg : g.flow_id ≠ fid := hpre g (by simp)
    have ih2 := ih (fun x hx => hpre x (by simp [hx]))
    by_cases h0 : m.recurrent = 0 <;> simp_all [execGo]

/-- C4: when a projected flow matches the id, `execute_flow` returns true,
appends to `executed` a new flow with the realized size, the given
execution time and the category, recurrence and comments of the matched flow;
a non-recurring match is dropped from `projected` (length decreases by 1)
while a recurring match stays (length unchanged) with its `time_executed`
overwritten. -/
theorem c4_execute_found (l : Ledger) (fid : Int) (rs : ℚ) (t : DateTime) (c : Int)
    (pre : List Flow) (m : Flow) (post : List Flow)
    (hsplit : l.projected = pre ++ m :: post)
    (hpre : ∀ g ∈ pre, g.flow_id ≠ fid) (hm : m.flow_id = fid) :
    (l.execute_flow fid rs t c).1 = true
    ∧ (l.execute_flow fid rs t c).2.1.executed
        = l.executed ++ [⟨c + 1, rs, m.category, t, m.recurrent, m.comments⟩]
    ∧ (m.recurrent = 0 →
        (l.execute_flow fid rs t c).2.1.projected = pre ++ post
        ∧ (l.execute_flow fid rs t c).2.1.projected.length + 1 = l.projected.length)
    ∧ (m.recurrent ≠ 0 →
        (l.execute_flow fid rs t c).2.1.projected
            = pre ++ ({ m with time_executed := t } :: post)
        ∧ (l.execute_flow fid rs t c).2.1.projected.length = l.projected.length) := by
  have hgo := execGo_append c fid rs t pre m post hpre hm
  unfold Ledger.execute_flow
  rw [hsplit, hgo]
  refine ⟨rfl, rfl, ?_, ?_⟩
  · intro h0
    simp [hsplit, h0]
    omega
  · intro h0
    simp [hsplit, h0]

/-- Witness for C4 on the recurring flow `flowRec` (period 30): executing it
with realized size 95 keeps it projected with its clock advanced. -/
theorem c4_execute_found_witness :
    ledgerRec.projected = [] ++ flowRec :: [] ∧ flowRec.flow_id = (1 : Int)
    ∧ (ledgerRec.execute_flow 1 95 dt20240131 1).1 = true
    ∧ (ledgerRec.execute_flow 1 95 dt20240131 1).2.1.executed
        = ledgerRec.executed
            ++ [⟨1 + 1, 95, flowRec.category, dt20240131, flowRec.recurrent, flowRec.comments⟩]
    ∧ (ledgerRec.execute_flow 1 95 dt20240131 1).2.1.projected
        = [] ++ ({ flowRec with time_executed := dt20240131 } :: []) :=
  have h := c4_execute_found ledgerRec 1 95 dt20240131 1 [] flowRec []
    rfl (by simp) (by decide)
  ⟨rfl, by decide, h.1, h.2.1, (h.2.2.2 (by decide)).1⟩

/-- C5: `add_flow` is idempotent under id collision — a call whose id is
already present is a complete no-op (nothing overwritten, `last_id`
untouched), and two successive adds of the same id leave exactly one flow
with that id. -/
theorem c5_add_idempotent (l : Ledger) (f g : Flow) (b b' : Bool)
    (hid : g.flow_id = f.flow_id) :
    (hasId l f.flow_id = true → l.add_flow f b = l)
    ∧ (l.add_flow f b).add_flow g b' = l.add_flow f b
    ∧ (countId l f.flow_id = 0 →
        countId ((l.add_flow f b).add_flow g b') f.flow_id = 1)
    ∧ (hasId l f.flow_id = true → (l.add_flow f b).last_id = l.last_id) := by
  have hsecond : (l.add_flow f b).add_flow g b' = l.add_flow f b := by
    apply add_flow_of_hasId
    rw [hid]
    exact hasId_after_add l f b
  refine ⟨fun h => add_flow_of_hasId l f b h, hsecond, ?_,
    fun h => by rw [add_flow_of_hasId l f b h]⟩
  intro h0
  rw [hsecond]
  unfold countId at h0
  have hproj : l.projected.countP (fun x => decide (x.flow_id = f.flow_id)) = 0 :=
    Nat.eq_zero_of_add_eq_zero_right h0
  have hexec : l.executed.countP (fun x => decide (x.flow_id = f.flow_id)) = 0 :=
    Nat.eq_zero_of_add_eq_zero_left h0
  have hpa : l.projected.any (fun x => decide (x.flow_id = f.flow_id)) = false := by
    rw [List.any_eq_false]
    intro x hx
    simpa using List.countP_eq_zero.mp hproj x hx
  have hea : l.executed.any (fun x => decide (x.flow_id = f.flow_id)) = false := by
    rw [List.any_eq_false]
    intro x hx
    simpa using List.countP_eq_zero.mp hexec x hx
  unfold Ledger.add_flow countId
  cases b <;> simp [hpa, hea, List.countP_append, hproj, hexec, List.countP_cons]

/-- Witness for C5: adding the same flow twice to an empty ledger leaves
exactly one flow with its id. -/
theorem c5_add_idempotent_witness :
    flowLate.flow_id = flowLate.flow_id
    ∧ ((Ledger.init "acct").add_flow flowLate false).add_flow flowLate true
        = (Ledger.init "acct").add_flow flowLate false
    ∧ countId (((Ledger.init "acct").add_flow flowLate false).add_flow flowLate true)
        flowLate.flow_id = 1 :=
  have h := c5_add_idempotent (Ledger.init "acct") flowLate flowLate false true rfl
  ⟨rfl, h.2.1, h.2.2.1 (by decide)⟩

/-- C6: when no projected flow carries the id, `execute_flow` returns false
and `remove_projected_flow` returns false, and in both cases the ledger
(both partitions and `last_id`) and the id counter are completely
unchanged. -/
theorem c6_not_found_no_change (l : Ledger) (fid : Int) (rs : ℚ) (t : DateTime)
    (c : Int) (h : ∀ f ∈ l.projected, f.flow_id ≠ fid) :
    l.execute_flow fid rs t c = (false, l, c)
    ∧ l.remove_projected_flow fid = (false, l) := by
  constructor
  · unfold Ledger.execute_flow
    rw [execGo_of_not_mem c fid rs t l.projected h]
  · unfold Ledger.remove_projected_flow
    have hkeep : l.projected.filter (fun f => decide (f.flow_id ≠ fid)) = l.projected := by
      rw [List.filter_eq_self]
      intro a ha
      simpa using h a ha
    rw [hkeep]
    simp

/-- Witness for C6: id 999 occurs nowhere in `ledgerRec.projected`. -/
theorem c6_not_found_no_change_witness :
    (∀ f ∈ ledgerRec.projected, f.flow_id ≠ (999 : Int))
    ∧ ledgerRec.execute_flow 999 7 dt20240131 1 = (false, ledgerRec, 1)
    ∧ ledgerRec.remove_projected_flow 999 = (false, ledgerRec) :=
  have h := c6_not_found_no_change ledgerRec 999 7 dt20240131 1 (by decide)
  ⟨by decide, h.1, h.2⟩

/-- Strengthened invariant for the operation-sequence induction: ids are
duplicate-free within each partition, never shared across partitions, and
all bounded by the current `Flow._id_counter` value. -/
def LedgerWF (l : Ledger) (c : Int) : Prop :=
  (idsOf l.executed).Nodup ∧ (idsOf l.projected).Nodup
    ∧ (∀ i, i ∈ idsOf l.executed → i ∉ idsOf l.projected)
    ∧ (∀ i, i ∈ idsOf l.executed ∨ i ∈ idsOf l.projected → i ≤ c)

/-- The invariant is monotone in the counter bound. -/
theorem LedgerWF.mono {l : Ledger} {c c' : Int} (h : LedgerWF l c) (hcc : c ≤ c') :
    LedgerWF l c' :=
  ⟨h.1, h.2.1, h.2.2.1, fun i hi => le_trans (h.2.2.2 i hi) hcc⟩

/-- `add_flow` preserves the invariant for any flow whose id respects the
counter bound. -/
theorem add_flow_WF {l : Ledger} {c : Int} (f : Flow) (b : Bool)
    (h : LedgerWF l c) (hf : f.flow_id ≤ c) : LedgerWF (l.add_flow f b) c := by
  obtain ⟨he, hp, hd, hb⟩ := h
  unfold Ledger.add_flow
  split_ifs with h1 h2
  · exact ⟨he, hp, hd, hb⟩
  · exact ⟨he, hp, hd, hb⟩
  all_goals
    rw [List.any_eq_true] at h1 h2
    push_neg at h1 h2
    have hfp : f.flow_id ∉ idsOf l.projected := by
      intro hmem
      obtain ⟨g, hg, hgid⟩ := List.mem_map.mp hmem
      exact absurd (by simpa using hgid) (h1 g hg)
    have hfe : f.flow_id ∉ idsOf l.executed := by
      intro hmem
      obtain ⟨g, hg, hgid⟩ := List.mem_map.mp hmem
      exact absurd (by simpa using hgid) (h2 g hg)
  · -- inserted into the projected list
    refine ⟨he, ?_, ?_, ?_⟩
    · show (idsOf (l.projected ++ [f])).Nodup
      rw [show idsOf (l.projected ++ [f]) = idsOf l.projected ++ [f.flow_id] by
        simp [idsOf]]
      exact hp.append (List.nodup_singleton _)
        (fun x hx hxa => hfp ((List.mem_singleton.mp hxa) ▸ hx))
    · intro i hi
      simp only [idsOf, List.map_append, List.map_cons, List.map_nil, List.mem_append,
        List.mem_singleton]
      rintro (hip | rfl)
      · exact hd i hi hip
      · exact hfe hi
    · intro i hi
      rcases hi with hie | hip
      · exact hb i (Or.inl hie)
      · rcases (by simpa [idsOf] using hip : i ∈ idsOf l.projected ∨ i = f.flow_id) with
          hio | rfl
        · exact hb i (Or.inr hio)
        · exact hf
  · -- inserted into the executed tuple
    refine ⟨?_, hp, ?_, ?_⟩
    · show (idsOf (l.executed ++ [f])).Nodup
      rw [show idsOf (l.executed ++ [f]) = idsOf l.executed ++ [f.flow_id] by
        simp [idsOf]]
      exact he.append (List.nodup_singleton _)
        (fun x hx hxa => hfe ((List.mem_singleton.mp hxa) ▸ hx))
    · intro i hi
      rcases (by simpa [idsOf] using hi : i ∈ idsOf l.executed ∨ i = f.flow_id) with
        hio | rfl
      · exact hd i hio
      · exact hfp
    · intro i hi
      rcases hi with hie | hip
      · rcases (by simpa [idsOf] using hie : i ∈ idsOf l.executed ∨ i = f.flow_id) with
          hio | rfl
        · exact hb i (Or.inl hio)
        · exact hf
      · exact hb i (Or.inr hip)

/-- A successful `execute_flow` scan yields a flow with the next counter
value as id, and a projected list whose ids form a sublist of the old
ones. -/
theorem execGo_some_spec (c fid : Int) (rs : ℚ) (t : DateTime) :
    ∀ (ps : List Flow) (nf : Flow) (ps' : List Flow),
      execGo c fid rs t ps = some (nf, ps') →
      nf.flow_id = c + 1 ∧ List.Sublist (idsOf ps') (idsOf ps) := by
  intro ps
  induction ps with
  | nil => intro nf ps' h; simp [execGo] at h
  | cons f rest ih =>
    intro nf ps' h
    by_cases hf : f.flow_id = fid
    · rw [execGo, if_pos hf] at h
      have h2 := Option.some.inj h
      have hnf : nf = (⟨c + 1, rs, f.category, t, f.recurrent, f.comments⟩ : Flow) :=
        (congrArg Prod.fst h2).symm
      have hps : (if f.recurrent = 0 then rest
          else { f with time_executed := t } :: rest) = ps' :=
        congrArg Prod.snd h2
      constructor
      · rw [hnf]
      · rw [← hps]
        by_cases h0 : f.recurrent = 0
        · rw [if_pos h0]
          simp only [idsOf, List.map_cons]
          exact List.sublist_cons_self _ _
        · rw [if_neg h0]
          simp [idsOf]
    · rw [execGo, if_neg hf] at h
      rcases Option.map_eq_some'.mp h with ⟨p, hp, heq⟩
      obtain ⟨hid, hsub⟩ := ih p.1 p.2 (by rw [hp])
      have hnf : nf = p.1 := (congrArg Prod.fst heq).symm
      have hps : f :: p.2 = ps' := congrArg Prod.snd heq
      constructor
      · rw [hnf]; exact hid
      · rw [← hps]
        simpa [idsOf] using hsub.cons₂ f.flow_id

/-- `execute_flow` preserves the invariant (with the counter it returns). -/
theorem execute_flow_WF {l : Ledger} {c : Int} (fid : Int) (rs : ℚ) (t : DateTime)
    (h : LedgerWF l c) :
    LedgerWF (l.execute_flow fid rs t c).2.1 (l.execute_flow fid rs t c).2.2 := by
  rcases hgo : execGo c fid rs t l.projected with _ | p
  · unfold Ledger.execute_flow
    rw [hgo]
    exact h
  · unfold Ledger.execute_flow
    rw [hgo]
    show LedgerWF { l with executed := l.executed ++ [p.1], projected := p.2 } (c + 1)
    obtain ⟨hid, hsub⟩ := execGo_some_spec c fid rs t l.projected p.1 p.2 (by rw [hgo])
    obtain ⟨he, hp, hd, hb⟩ := h
    have hfresh : (c + 1) ∉ idsOf l.executed := fun hmem => by
      have := hb _ (Or.inl hmem); omega
    have hfreshp : (c + 1) ∉ idsOf l.projected := fun hmem => by
      have := hb _ (Or.inr hmem); omega
    refine ⟨?_, hp.sublist hsub, ?_, ?_⟩
    · show (idsOf (l.executed ++ [p.1])).Nodup
      rw [show idsOf (l.executed ++ [p.1]) = idsOf l.executed ++ [p.1.flow_id] by
        simp [idsOf], hid]
      exact he.append (List.nodup_singleton _)
        (fun x hx hxa => hfresh ((List.mem_singleton.mp hxa) ▸ hx))
    · intro i hi hip
      rcases (by simpa [idsOf, hid] using hi : i ∈ idsOf l.executed ∨ i = c + 1) with
        hio | rfl
      · exact hd i hio (hsub.subset hip)
      · exact hfreshp (hsub.subset hip)
    · intro i hi
      rcases hi with hie | hip
      · rcases (by simpa [idsOf, hid] using hie : i ∈ idsOf l.executed ∨ i = c + 1) with
          hio | rfl
        · exact le_trans (hb i (Or.inl hio)) (by omega)
        · exact le_refl _
      · exact le_trans (hb i (Or.inr (hsub.subset hip))) (by omega)

/-- `remove_projected_flow` preserves the invariant. -/
theorem remove_flow_WF {l : Ledger} {c : Int} (fid : Int) (h : LedgerWF l c) :
    LedgerWF (l.remove_projected_flow fid).2 c := by
  obtain ⟨he, hp, hd, hb⟩ := h
  have hsub : List.Sublist
      (idsOf (l.projected.filter (fun f => decide (f.flow_id ≠ fid))))
      (idsOf l.projected) := (List.filter_sublist _).map _
  exact ⟨he, hp.sublist hsub, fun i hi hip => hd i hi (hsub.subset hip),
    fun i hi => hb i (hi.imp id (fun hip => hsub.subset hip))⟩

/-- One operation preserves the invariant. -/
theorem stepOp_WF (s : Ledger × Int) (op : Op) (h : LedgerWF s.1 s.2) :
    LedgerWF (stepOp s op).1 (stepOp s op).2 := by
  cases op with
  | add size category t recurrent comments is_proj =>
    show LedgerWF (s.1.add_flow ⟨s.2 + 1, size, category, t, recurrent, comments⟩ is_proj)
      (s.2 + 1)
    exact add_flow_WF _ _ (h.mono (by omega)) (le_refl _)
  | exec fid real_size t => exact execute_flow_WF fid real_size t h
  | remove fid => exact remove_flow_WF fid h

/-- Running any operation list preserves the invariant. -/
theorem foldl_stepOp_WF (ops : List Op) :
    ∀ s : Ledger × Int, LedgerWF s.1 s.2 →
      LedgerWF (ops.foldl stepOp s).1 (ops.foldl stepOp s).2 := by
  induction ops with
  | nil => intro s h; exact h
  | cons op rest ih => intro s h; exact ih _ (stepOp_WF s op h)

/-- C7: starting from an empty ledger, after any sequence of add, execute
and remove calls (flows built by the `Flow` constructor), no id is
duplicated within a partition and no id appears in both partitions. -/
theorem c7_id_uniqueness_invariant (name : String) (ops : List Op) :
    (idsOf (runOps name ops).1.executed).Nodup
    ∧ (idsOf (runOps name ops).1.projected).Nodup
    ∧ ∀ i, i ∈ idsOf (runOps name ops).1.executed →
        i ∉ idsOf (runOps name ops).1.projected := by
  have hinit : LedgerWF (Ledger.init name) (-1) := by
    refine ⟨List.nodup_nil, List.nodup_nil, ?_, ?_⟩ <;> simp [Ledger.init, idsOf]
  have h := foldl_stepOp_WF ops (Ledger.init name, -1) hinit
  exact ⟨h.1, h.2.1, h.2.2.1⟩

/-- C8 (code bug in src/utils/save.py): on a read failure `load_ledger`
does not return a freshly constructed empty `Ledger` as its docstring and
the spec state — the fallback `Ledger()` call is itself invalid (the
required `account_name` argument is missing), so a `TypeError` propagates
to the caller on every failing load. -/
theorem c8_load_failure_raises (msg : String) :
    load_ledger (Except.error msg) = ledgerNoArgCtor
    ∧ ∀ l : Ledger, load_ledger (Except.error msg) ≠ Except.ok l := by
  refine ⟨rfl, fun l h => ?_⟩
  unfold load_ledger ledgerNoArgCtor at h
  exact Except.noConfusion h

/-- C10: a defaulted `get_balance(ledger)` call filters the executed flows
against the single datetime captured when the balance module was imported,
and consequently `get_future_balance` (which calls `get_balance` with no
explicit timestamp) ignores executed flows dated after the import date no
matter what the actual current time is: appending such a flow never
changes its result. -/
theorem c10_import_time_default (it : DateTime) (l : Ledger) (ts : DateTime) (f : Flow) :
    get_balance_defaulted it l = specRealizedBalance l it
    ∧ (it.dateOrd < f.time_executed.dateOrd →
        get_future_balance it { l with executed := l.executed ++ [f] } ts
          = get_future_balance it l ts) := by
  constructor
  · exact filter_map_sum (fun g => g.time_executed.dateOrd ≤ it.dateOrd) l.executed
  · intro h
    rw [get_future_balance_eq_sum, get_future_balance_eq_sum]
    have hf : (decide (f.time_executed.dateOrd ≤ it.dateOrd)) = false := by
      simpa using Nat.not_le.mpr h
    have hbal : get_balance { l with executed := l.executed ++ [f] } it
        = get_balance l it := by
      simp [get_balance, List.filter_append, List.filter_cons, hf]
    rw [hbal]

/-- Witness for C10: a flow dated 2024-01-31 appended to the executed
partition leaves `get_future_balance` with import time 2024-01-01
unchanged. -/
theorem c10_import_time_default_witness :
    dt20240101.dateOrd < flowLate.time_executed.dateOrd
    ∧ get_future_balance dt20240101
          { ledgerRec with executed := ledgerRec.executed ++ [flowLate] } dt20240131
        = get_future_balance dt20240101 ledgerRec dt20240131 :=
  ⟨by decide,
    (c10_import_time_default dt20240101 ledgerRec dt20240131 flowLate).2 (by decide)⟩

/-! Calendar constants for the monthly-series claims. -/

/-- Datetime 2024-06-15 12:00:00, the reference "now" of the series walks. -/
def nowJun : DateTime := ⟨2024, 6, 15, 12, 0, 0, 0⟩

/-- Datetime 2024-08-31 00:00:00, the forward walk end timestamp. -/
def endAug : DateTime := ⟨2024, 8, 31, 0, 0, 0, 0⟩

/-- Datetime 2024-04-01 00:00:00, the backward walk end timestamp. -/
def endApr : DateTime := ⟨2024, 4, 1, 0, 0, 0, 0⟩

/-- A ledger with one projected non-recurring inflow of 100 due 2024-06-20
(after "now" but before the June month end). -/
def ledgerProjJun : Ledger :=
  ⟨"acct", [], [⟨1, 100, "inflow", ⟨2024, 6, 20, 0, 0, 0, 0⟩, 0, ""⟩], 1⟩

/-- A ledger with one executed inflow of 100 dated 2024-06-25 (after "now"
but inside the current month). -/
def ledgerExecJun : Ledger :=
  ⟨"acct", [⟨1, 100, "inflow", ⟨2024, 6, 25, 0, 0, 0, 0⟩, 0, ""⟩], [], 1⟩

/-- First bucket of the forward month walk, for any positive fuel. -/
theorem future_monthly_head (fuel : Nat) (it : DateTime) (l : Ledger)
    (now endTs : DateTime) (h : now.micros ≤ endTs.micros) :
    (get_future_monthly_balances (fuel + 1) it l now endTs).head?
      = some ((now.year, now.month),
          round2 (get_future_balance it l
            (if endTs.micros < (endOfMonth now).micros then endTs
             else endOfMonth now))) := by
  rw [get_future_monthly_balances, if_pos h]
  rfl

/-- First bucket of the backward month walk, for any positive fuel. -/
theorem past_monthly_head (fuel : Nat) (l : Ledger) (now endTs : DateTime)
    (h : endTs.micros ≤ now.micros) :
    (get_past_monthly_balances (fuel + 1) l now endTs).head?
      = some ((now.year, now.month), get_balance l (endOfMonth now)) := by
  rw [get_past_monthly_balances, if_pos h]
  rfl

/-- The June bucket of the forward series on `ledgerProjJun` is 100 (the
projected flow due 2024-06-20 is inside the month-end horizon). -/
theorem forward_june_bucket :
    (get_future_monthly_balances 12 nowJun ledgerProjJun nowJun endAug).head?
      = some ((2024, 6), (100 : ℚ)) := by
  have hgf : get_future_balance nowJun ledgerProjJun (endOfMonth nowJun) = 100 := by
    norm_num [get_future_balance, get_balance_defaulted, get_balance, ledgerProjJun,
      nowJun, endOfMonth, DateTime.micros, DateTime.dateOrd, toOrdinal, daysBeforeMonth,
      daysInMonth, isLeap, List.foldl, List.range_succ]
  have hr2 : round2 (100 : ℚ) = 100 := by norm_num [round2]
  have h := future_monthly_head 11 nowJun ledgerProjJun nowJun endAug (by decide)
  rw [if_neg (by decide : ¬ endAug.micros < (endOfMonth nowJun).micros), hgf, hr2] at h
  exact h

/-- The June bucket of the backward series on `ledgerExecJun` is 100 (the
executed flow dated 2024-06-25 is counted at the June month end). -/
theorem backward_june_bucket :
    (get_past_monthly_balances 12 ledgerExecJun nowJun endApr).head?
      = some ((2024, 6), (100 : ℚ)) := by
  have hgb : get_balance ledgerExecJun (endOfMonth nowJun) = 100 := by
    norm_num [get_balance, ledgerExecJun, nowJun, endOfMonth, DateTime.dateOrd, toOrdinal,
      daysBeforeMonth, daysInMonth, isLeap, List.range_succ]
  have h := past_monthly_head 11 ledgerExecJun nowJun endApr (by decide)
  rw [hgb] at h
  exact h

/-- C9 fails on the code: the current-month bucket of each series is a
month-end balance, not `get_balance(ledger, now)`. With one projected flow
due after "now" but inside June, the June bucket of the forward series is 100
while the realized balance at "now" is 0; with one executed flow dated
after "now" but inside June, the June bucket of the backward series is 100 while
the realized balance at "now" is 0. -/
theorem c9_seam_counterexample :
    (get_future_monthly_balances 12 nowJun ledgerProjJun nowJun endAug).head?
        ≠ some ((2024, 6), get_balance ledgerProjJun nowJun)
    ∧ (get_past_monthly_balances 12 ledgerExecJun nowJun endApr).head?
        ≠ some ((2024, 6), get_balance ledgerExecJun nowJun)
    ∧ (get_future_monthly_balances 12 nowJun ledgerProjJun nowJun endAug).head?
        = some ((2024, 6), 100)
    ∧ get_balance ledgerProjJun nowJun = 0
    ∧ (get_past_monthly_balances 12 ledgerExecJun nowJun endApr).head?
        = some ((2024, 6), 100)
    ∧ get_balance ledgerExecJun nowJun = 0 := by
  have h0f : get_balance ledgerProjJun nowJun = 0 := by
    norm_num [get_balance, ledgerProjJun]
  have h0p : get_balance ledgerExecJun nowJun = 0 := by
    norm_num [get_balance, ledgerExecJun, nowJun, DateTime.dateOrd, toOrdinal,
      daysBeforeMonth, daysInMonth, isLeap, List.range_succ]
  refine ⟨?_, ?_, forward_june_bucket, h0f, backward_june_bucket, h0p⟩
  · rw [forward_june_bucket, h0f]
    norm_num
  · rw [backward_june_bucket, h0p]
    norm_num

/-- C9 amended: whenever each walk runs at least one iteration, the bucket
nearest "now" (the current-month entry, first in insertion order) of the
forward series equals the two-decimal-rounded `get_future_balance` at the
current-month end clipped to the end timestamp, and that of the backward
series equals `get_balance` at the current-month end — month-end values
that in general differ from the realized balance at "now" itself. -/
theorem c9_seam_amended (fuel : Nat) (it : DateTime) (lf lp : Ledger)
    (now endF endP : DateTime)
    (hF : now.micros ≤ endF.micros) (hP : endP.micros ≤ now.micros) :
    (get_future_monthly_balances (fuel + 1) it lf now endF).head?
        = some ((now.year, now.month),
            round2 (get_future_balance it lf
              (if endF.micros < (endOfMonth now).micros then endF else endOfMonth now)))
    ∧ (get_past_monthly_balances (fuel + 1) lp now endP).head?
        = some ((now.year, now.month), get_balance lp (endOfMonth now)) :=
  ⟨future_monthly_head fuel it lf now endF hF, past_monthly_head fuel lp now endP hP⟩

/-- Witness for the amended C9 at the concrete June 2024 inputs. -/
theorem c9_seam_amended_witness :
    nowJun.micros ≤ endAug.micros ∧ endApr.micros ≤ nowJun.micros
    ∧ (get_future_monthly_balances 12 nowJun ledgerProjJun nowJun endAug).head?
        = some ((nowJun.year, nowJun.month),
            round2 (get_future_balance nowJun ledgerProjJun
              (if endAug.micros < (endOfMonth nowJun).micros then endAug
               else endOfMonth nowJun)))
    ∧ (get_past_monthly_balances 12 ledgerExecJun nowJun endApr).head?
        = some ((nowJun.year, nowJun.month), get_balance ledgerExecJun (endOfMonth nowJun)) :=
  have h := c9_seam_amended 11 nowJun ledgerProjJun ledgerExecJun nowJun endAug endApr
    (by decide) (by decide)
  ⟨by decide, by decide, h.1, h.2⟩

end NeedCash
